import Mathlib

/-!
Shallow embedding of the oracle-kanban task-board service.

The model follows the canonical full-featured app variant
(`src/tests/app.ts`, with the schema from `src/tests/setup.ts`):
an SQLite table of tasks, REST handlers for list / create / update /
delete / move, and a broadcast of one server-sent event per successful
mutation.  JSON bodies are modelled with `Option` fields (`none` stands
for an absent key or JSON `null`, which the handlers conflate via
`?? null`); JavaScript truthiness on those fields is modelled by
`truthyStr` / `jsOrStr` / `jsOrInt`.  Timestamps are naturals fed in as
an explicit `now` clock (`CURRENT_TIMESTAMP`).  The table CHECK
constraints on `owner` and `status` are modelled by `rowOk`; a
constraint violation outside a try/catch surfaces as `Resp.serverError`
(an uncaught exception), and inside the create handler's try/catch as
the 400 "Failed to create task" branch.
-/

namespace Kanban

/-- The two permitted owner values (table CHECK constraint and handler enum). -/
def ownerValues : List String := ["oracle", "soheil"]

/-- The three permitted workflow statuses (table CHECK constraint and handler enum). -/
def statusValues : List String := ["backlog", "in_progress", "done"]

/-- One row of the `tasks` table. -/
structure Task where
  id : Nat
  title : String
  description : String
  owner : String
  priority : Int
  status : String
  position : Int
  created_at : Nat
  updated_at : Nat
deriving Repr, DecidableEq

/-- Database state: the rows of the `tasks` table in rowid order plus the
next AUTOINCREMENT id. -/
structure Db where
  rows : List Task
  nextId : Nat
deriving Repr, DecidableEq

/-- The freshly created (empty) table. -/
def Db.empty : Db := ⟨[], 1⟩

/-- JavaScript truthiness of an optional JSON string field: absent keys,
`null` and the empty string are falsy. -/
def truthyStr : Option String → Bool
  | none => false
  | some s => !(s == "")

/-- JavaScript `x || d` for an optional JSON string field. -/
def jsOrStr (x : Option String) (d : String) : String :=
  match x with
  | none => d
  | some s => if s == "" then d else s

/-- JavaScript `x || d` for an optional JSON integer field (`0` is falsy). -/
def jsOrInt (x : Option Int) (d : Int) : Int :=
  match x with
  | none => d
  | some n => if n == 0 then d else n

/-- The table CHECK constraints: `owner` and `status` must lie in their enums. -/
def rowOk (t : Task) : Bool :=
  ownerValues.contains t.owner && statusValues.contains t.status

/-- SELECT * FROM tasks WHERE id = ? (first match). -/
def findTask (db : Db) (id : Nat) : Option Task :=
  db.rows.find? (fun t => t.id == id)

/-- UPDATE ... WHERE id = ?, replacing each matching row by `t'`. -/
def replaceRow (db : Db) (id : Nat) (t' : Task) : Db :=
  ⟨db.rows.map (fun t => if t.id == id then t' else t), db.nextId⟩

/-- HTTP responses the handlers can produce.  `serverError` is an uncaught
exception (a CHECK-constraint violation outside any try/catch). -/
inductive Resp where
  | ok (t : Task)
  | created (t : Task)
  | noContent
  | badRequest (msg : String)
  | notFound (msg : String)
  | serverError
deriving Repr, DecidableEq

/-- Whether a response is an error (HTTP status 400, 404 or 500). -/
def Resp.isErr : Resp → Bool
  | .badRequest _ => true
  | .notFound _ => true
  | .serverError => true
  | _ => false

/-- A broadcast server-sent event, as handed to `broadcast(event, data)`. -/
inductive Event where
  | taskCreated (t : Task)
  | taskUpdated (t : Task)
  | taskDeleted (id : Nat)
deriving Repr, DecidableEq

/-- The SSE event name of a broadcast event. -/
def eventName : Event → String
  | .taskCreated _ => "task-created"
  | .taskUpdated _ => "task-updated"
  | .taskDeleted _ => "task-deleted"

/-- Broadcasting writes the event frame to every currently subscribed client. -/
def broadcastAll (subscribers : List Nat) (e : Event) : List (Nat × Event) :=
  subscribers.map (fun c => (c, e))

/-- JSON body of POST /api/tasks. -/
structure CreateReq where
  title : Option String := none
  description : Option String := none
  owner : Option String := none
  priority : Option Int := none
  status : Option String := none
deriving Repr, DecidableEq

/-- JSON body of PUT /api/tasks/:id. -/
structure UpdateReq where
  title : Option String := none
  description : Option String := none
  owner : Option String := none
  priority : Option Int := none
  status : Option String := none
  position : Option Int := none
deriving Repr, DecidableEq

/-- JSON body of PATCH /api/tasks/:id/move. -/
structure MoveReq where
  status : Option String := none
  position : Option Int := none
deriving Repr, DecidableEq

/-- POST /api/tasks: validate title/owner/status, INSERT with defaults,
re-read the row, broadcast `task-created`, answer 201.  A storage failure
inside the try/catch answers 400 "Failed to create task". -/
def createTask (db : Db) (now : Nat) (r : CreateReq) : Resp × Db × List Event :=
  if !truthyStr r.title || !truthyStr r.owner then
    (.badRequest "Title and owner are required", db, [])
  else if !(ownerValues.contains (r.owner.getD "")) then
    (.badRequest "Owner must be \"oracle\" or \"soheil\"", db, [])
  else if truthyStr r.status && !(statusValues.contains (r.status.getD "")) then
    (.badRequest "Invalid status", db, [])
  else
    let t : Task :=
      { id := db.nextId
        title := r.title.getD ""
        description := jsOrStr r.description ""
        owner := r.owner.getD ""
        priority := jsOrInt r.priority 1
        status := jsOrStr r.status "backlog"
        position := 0
        created_at := now
        updated_at := now }
    if rowOk t then
      (.created t, ⟨db.rows ++ [t], db.nextId + 1⟩, [.taskCreated t])
    else
      (.badRequest "Failed to create task", db, [])

/-- The COALESCE merge of the UPDATE statement in PUT /api/tasks/:id:
each supplied (non-null) field overwrites, each absent/null field keeps
the stored value; `updated_at` is set to CURRENT_TIMESTAMP. -/
def mergeRow (r : UpdateReq) (now : Nat) (t : Task) : Task :=
  { t with
    title := r.title.getD t.title
    description := r.description.getD t.description
    owner := r.owner.getD t.owner
    priority := r.priority.getD t.priority
    status := r.status.getD t.status
    position := r.position.getD t.position
    updated_at := now }

/-- PUT /api/tasks/:id: 404 when the id is unknown, 400 on a truthy
invalid owner or status, otherwise COALESCE-merge, re-read, broadcast
`task-updated`, answer 200.  A CHECK violation (e.g. owner or status
supplied as the empty string, which skips the truthiness-guarded
validation) throws uncaught. -/
def updateTask (db : Db) (now : Nat) (id : Nat) (r : UpdateReq) : Resp × Db × List Event :=
  match findTask db id with
  | none => (.notFound "Task not found", db, [])
  | some t =>
    if truthyStr r.owner && !(ownerValues.contains (r.owner.getD "")) then
      (.badRequest "Owner must be \"oracle\" or \"soheil\"", db, [])
    else if truthyStr r.status && !(statusValues.contains (r.status.getD "")) then
      (.badRequest "Invalid status", db, [])
    else
      let t' := mergeRow r now t
      if rowOk t' then
        (.ok t', replaceRow db id t', [.taskUpdated t'])
      else
        (.serverError, db, [])

/-- DELETE /api/tasks/:id: 404 when the id is unknown, otherwise DELETE
the row, broadcast `task-deleted` with payload containing only the id,
answer 204. -/
def deleteTask (db : Db) (id : Nat) : Resp × Db × List Event :=
  match findTask db id with
  | none => (.notFound "Task not found", db, [])
  | some _ =>
    (.noContent, ⟨db.rows.filter (fun t => !(t.id == id)), db.nextId⟩, [.taskDeleted id])

/-- PATCH /api/tasks/:id/move: 404 when the id is unknown, 400 when the
status is falsy or outside the enum, otherwise overwrite status and
position (position falsy-defaults to 0), refresh `updated_at`, re-read,
broadcast `task-updated`, answer 200. -/
def moveTask (db : Db) (now : Nat) (id : Nat) (r : MoveReq) : Resp × Db × List Event :=
  match findTask db id with
  | none => (.notFound "Task not found", db, [])
  | some t =>
    if !truthyStr r.status || !(statusValues.contains (r.status.getD "")) then
      (.badRequest "Valid status is required", db, [])
    else
      let t' := { t with
        status := r.status.getD ""
        position := jsOrInt r.position 0
        updated_at := now }
      if rowOk t' then
        (.ok t', replaceRow db id t', [.taskUpdated t'])
      else
        (.serverError, db, [])

/-- Lexicographic strict comparison of character lists by codepoint,
SQLite's BINARY collation on (UTF-8) text values. -/
def listLtB : List Char → List Char → Bool
  | _, [] => false
  | [], _ :: _ => true
  | a :: as, b :: bs =>
    if a.toNat < b.toNat then true
    else if b.toNat < a.toNat then false
    else listLtB as bs

/-- Strict BINARY-collation comparison of two strings. -/
def strLtB (s t : String) : Bool := listLtB s.data t.data

/-- Comparison of two rows under ORDER BY status, position, id
(non-strict, for sorting). -/
def taskLeB (t u : Task) : Bool :=
  if strLtB t.status u.status then true
  else if strLtB u.status t.status then false
  else if t.position < u.position then true
  else if u.position < t.position then false
  else decide (t.id ≤ u.id)

/-- Propositional form of `taskLeB`. -/
def taskLe (t u : Task) : Prop := taskLeB t u = true

instance : DecidableRel taskLe := fun t u =>
  inferInstanceAs (Decidable (taskLeB t u = true))

/-- The optional WHERE owner = ? clause: applied only when the query
parameter is a truthy string. -/
def applyOwnerFilter (rows : List Task) (owner : Option String) : List Task :=
  if truthyStr owner then rows.filter (fun t => t.owner == owner.getD "") else rows

/-- GET /api/tasks: optional owner filter, then ORDER BY status, position, id. -/
def listTasks (db : Db) (owner : Option String) : List Task :=
  (applyOwnerFilter db.rows owner).insertionSort taskLe

/-- A mutating API request, for reasoning about sequences of operations. -/
inductive Op where
  | createOp (r : CreateReq)
  | updateOp (id : Nat) (r : UpdateReq)
  | moveOp (id : Nat) (r : MoveReq)
  | deleteOp (id : Nat)
deriving Repr

/-- The database state after one mutating request. -/
def applyOp (db : Db) (now : Nat) : Op → Db
  | .createOp r => (createTask db now r).2.1
  | .updateOp id r => (updateTask db now id r).2.1
  | .moveOp id r => (moveTask db now id r).2.1
  | .deleteOp id => (deleteTask db id).2.1

/-- The database state after a sequence of timestamped mutating requests. -/
def execTrace : Db → List (Nat × Op) → Db
  | db, [] => db
  | db, (now, op) :: rest => execTrace (applyOp db now op) rest

/-- Every row's id is distinct (the PRIMARY KEY invariant). -/
def idsUniqueB : List Task → Bool
  | [] => true
  | t :: ts => ts.all (fun u => !(u.id == t.id)) && idsUniqueB ts

/-- Primary-key well-formedness: distinct row ids, all below the
AUTOINCREMENT counter. -/
def dbIdsOkB (db : Db) : Bool :=
  idsUniqueB db.rows && db.rows.all (fun t => decide (t.id < db.nextId))

/-- Timestamp sanity at clock value c: every row has
created_at <= updated_at <= c. -/
def timeOkB (c : Nat) (db : Db) : Bool :=
  db.rows.all fun t => decide (t.created_at ≤ t.updated_at) && decide (t.updated_at ≤ c)

/-- The clock never runs backwards along a trace starting at time c. -/
def stampsMonoB : Nat → List (Nat × Op) → Bool
  | _, [] => true
  | c, (now, _) :: rest => decide (c ≤ now) && stampsMonoB now rest

/-- Distinctness of a list of ids. -/
def natsUniqueB : List Nat → Bool
  | [] => true
  | n :: ns => ns.all (fun m => !(m == n)) && natsUniqueB ns

/-- The clock value after running a timestamped trace. -/
def endStamp : Nat → List (Nat × Op) → Nat
  | c, [] => c
  | _, (now, _) :: rest => endStamp now rest

/-- Concrete fixture task used by witnesses and counterexamples. -/
def exTask1 : Task :=
  ⟨1, "Fix bug", "tokens expire", "oracle", 3, "in_progress", 0, 0, 0⟩

/-- Concrete one-row fixture database. -/
def exDb1 : Db := ⟨[exTask1], 2⟩

lemma listLtB_irrefl (a : List Char) : listLtB a a = false := by
  induction a with
  | nil => rfl
  | cons x xs ih => simp [listLtB, ih]

lemma listLtB_trans : ∀ {a b c : List Char},
    listLtB a b = true → listLtB b c = true → listLtB a c = true := by
  intro a
  induction a with
  | nil =>
    intro b c hab hbc
    cases b with
    | nil => simp [listLtB] at hab
    | cons y ys =>
      cases c with
      | nil => simp [listLtB] at hbc
      | cons z zs => simp [listLtB]
  | cons x xs ih =>
    intro b c hab hbc
    cases b with
    | nil => simp [listLtB] at hab
    | cons y ys =>
      cases c with
      | nil => simp [listLtB] at hbc
      | cons z zs =>
        by_cases hxy : x.toNat < y.toNat
        · by_cases hyz : y.toNat < z.toNat
          · have hxz : x.toNat < z.toNat := Nat.lt_trans hxy hyz
            simp [listLtB, hxz]
          · by_cases hzy : z.toNat < y.toNat
            · simp [listLtB, hyz, hzy] at hbc
            · have hxz : x.toNat < z.toNat := by omega
              simp [listLtB, hxz]
        · by_cases hyx : y.toNat < x.toNat
          · simp [listLtB, hxy, hyx] at hab
          · simp [listLtB, hxy, hyx] at hab
            by_cases hyz : y.toNat < z.toNat
            · have hxz : x.toNat < z.toNat := by omega
              simp [listLtB, hxz]
            · by_cases hzy : z.toNat < y.toNat
              · simp [listLtB, hyz, hzy] at hbc
              · simp [listLtB, hyz, hzy] at hbc
                have hxz : ¬ x.toNat < z.toNat := by omega
                have hzx : ¬ z.toNat < x.toNat := by omega
                simp [listLtB, hxz, hzx]
                exact ih hab hbc

lemma listLtB_eq_of_not : ∀ {a b : List Char},
    listLtB a b = false → listLtB b a = false → a = b := by
  intro a
  induction a with
  | nil =>
    intro b h1 _
    cases b with
    | nil => rfl
    | cons y ys => simp [listLtB] at h1
  | cons x xs ih =>
    intro b h1 h2
    cases b with
    | nil => simp [listLtB] at h2
    | cons y ys =>
      by_cases hxy : x.toNat < y.toNat
      · simp [listLtB, hxy] at h1
      · by_cases hyx : y.toNat < x.toNat
        · simp [listLtB, hyx] at h2
        · simp [listLtB, hxy, hyx] at h1 h2
          have hc : x = y :=
            Char.ext (UInt32.toNat.inj (Nat.le_antisymm (Nat.not_lt.mp hyx) (Nat.not_lt.mp hxy)))
          rw [hc, ih h1 h2]

lemma strLtB_irrefl (s : String) : strLtB s s = false := listLtB_irrefl s.data

lemma strLtB_trans {s t u : String} (h1 : strLtB s t = true) (h2 : strLtB t u = true) :
    strLtB s u = true := listLtB_trans h1 h2

lemma strLtB_eq_of_not {s t : String} (h1 : strLtB s t = false) (h2 : strLtB t s = false) :
    s = t := by
  cases s
  cases t
  exact congrArg String.mk (listLtB_eq_of_not h1 h2)

lemma taskLe_iff {t u : Task} : taskLe t u ↔
    (strLtB t.status u.status = true ∨
      (t.status = u.status ∧ (t.position < u.position ∨
        (t.position = u.position ∧ t.id ≤ u.id)))) := by
  unfold taskLe taskLeB
  by_cases h1 : strLtB t.status u.status = true
  · simp [h1]
  · rw [Bool.not_eq_true] at h1
    by_cases h2 : strLtB u.status t.status = true
    · have hne : t.status ≠ u.status := by
        intro he
        rw [he, strLtB_irrefl] at h2
        exact Bool.false_ne_true h2
      simp [h1, h2, hne]
    · rw [Bool.not_eq_true] at h2
      have heq : t.status = u.status := strLtB_eq_of_not h1 h2
      simp only [h1, h2, Bool.false_eq_true, if_false, false_or]
      simp only [heq, eq_self_iff_true, true_and]
      split_ifs with hp1 hp2
      · simp only [true_iff]
        exact Or.inl hp1
      · simp only [Bool.false_eq_true, false_iff]
        omega
      · rw [decide_eq_true_iff]
        omega

instance : IsTotal Task taskLe := by
  constructor
  intro a b
  rw [taskLe_iff, taskLe_iff]
  by_cases hab : strLtB a.status b.status = true
  · exact Or.inl (Or.inl hab)
  · by_cases hba : strLtB b.status a.status = true
    · exact Or.inr (Or.inl hba)
    · rw [Bool.not_eq_true] at hab hba
      have heq : a.status = b.status := strLtB_eq_of_not hab hba
      rcases lt_trichotomy a.position b.position with hp | hp | hp
      · exact Or.inl (Or.inr ⟨heq, Or.inl hp⟩)
      · rcases Nat.le_total a.id b.id with hid | hid
        · exact Or.inl (Or.inr ⟨heq, Or.inr ⟨hp, hid⟩⟩)
        · exact Or.inr (Or.inr ⟨heq.symm, Or.inr ⟨hp.symm, hid⟩⟩)
      · exact Or.inr (Or.inr ⟨heq.symm, Or.inl hp⟩)

instance : IsTrans Task taskLe := by
  constructor
  intro a b c h1 h2
  rw [taskLe_iff] at h1 h2 ⊢
  rcases h1 with h1 | ⟨he1, hp1⟩
  · rcases h2 with h2 | ⟨he2, _⟩
    · exact Or.inl (strLtB_trans h1 h2)
    · exact Or.inl (he2 ▸ h1)
  · rcases h2 with h2 | ⟨he2, hp2⟩
    · exact Or.inl (he1 ▸ h2)
    · refine Or.inr ⟨he1.trans he2, ?_⟩
      rcases hp1 with hp1 | ⟨hp1, hid1⟩ <;> rcases hp2 with hp2 | ⟨hp2, hid2⟩
      · exact Or.inl (hp1.trans hp2)
      · exact Or.inl (hp2 ▸ hp1)
      · exact Or.inl (hp1 ▸ hp2)
      · exact Or.inr ⟨hp1.trans hp2, hid1.trans hid2⟩

/-- Claim C5: for every database state and owner filter, the list endpoint
returns the (filtered) rows sorted by (status as a plain string ascending,
position ascending, id ascending); in particular a task with status
"in_progress" never precedes one with status "done" (lexical, not
workflow, order). -/
theorem spec_C5 (db : Db) (owner : Option String) :
    (listTasks db owner).Perm (applyOwnerFilter db.rows owner) ∧
    (listTasks db owner).Sorted taskLe ∧
    (listTasks db owner).Pairwise
      (fun t u => ¬(t.status = "in_progress" ∧ u.status = "done")) := by
  refine ⟨List.perm_insertionSort _ _, List.sorted_insertionSort _ _, ?_⟩
  refine List.Pairwise.imp ?_ (List.sorted_insertionSort taskLe _)
  intro t u h
  rintro ⟨hs1, hs2⟩
  rw [taskLe_iff, hs1, hs2] at h
  rcases h with h | ⟨h, -⟩
  · exact absurd h (by decide)
  · exact absurd h (by decide)

/-- Claim C10: for Update and Move, the existence check precedes field
validation: a request targeting a nonexistent id (whatever the body
contains, including an invalid owner or status) yields NotFoundError,
never ValidationError, and leaves the database unchanged. -/
theorem spec_C10 (db : Db) (now id : Nat) (ur : UpdateReq) (mr : MoveReq)
    (hnone : findTask db id = none) :
    (updateTask db now id ur).1 = .notFound "Task not found" ∧
    (updateTask db now id ur).2.1 = db ∧
    (moveTask db now id mr).1 = .notFound "Task not found" ∧
    (moveTask db now id mr).2.1 = db := by
  unfold updateTask moveTask
  rw [hnone]
  exact ⟨rfl, rfl, rfl, rfl⟩

/-- Witness for C10: a PUT and a PATCH move against the empty database
with bodies carrying an invalid owner and an invalid status both answer
404, not 400. -/
theorem spec_C10_witness :
    (updateTask Db.empty 0 1 { owner := some "bogus" }).1 = .notFound "Task not found" ∧
    (updateTask Db.empty 0 1 { owner := some "bogus" }).2.1 = Db.empty ∧
    (moveTask Db.empty 0 1 { status := some "bogus" }).1 = .notFound "Task not found" ∧
    (moveTask Db.empty 0 1 { status := some "bogus" }).2.1 = Db.empty :=
  spec_C10 Db.empty 0 1 { owner := some "bogus" } { status := some "bogus" } (by decide)

/-- Claim C1: a successful Update merges value-presence based: every field
supplied non-null in the body (including numeric 0 and the empty string)
overwrites the stored value, every field absent from the body (or supplied
as JSON null, which the handler maps to the same SQL NULL sentinel)
retains the stored value, and id and created_at are unchanged. -/
theorem spec_C1 (db : Db) (now id : Nat) (r : UpdateReq) (t t' : Task)
    (hfind : findTask db id = some t)
    (hok : (updateTask db now id r).1 = .ok t') :
    ((r.title = none → t'.title = t.title) ∧ (∀ v, r.title = some v → t'.title = v)) ∧
    ((r.description = none → t'.description = t.description) ∧
      (∀ v, r.description = some v → t'.description = v)) ∧
    ((r.owner = none → t'.owner = t.owner) ∧ (∀ v, r.owner = some v → t'.owner = v)) ∧
    ((r.priority = none → t'.priority = t.priority) ∧
      (∀ v, r.priority = some v → t'.priority = v)) ∧
    ((r.status = none → t'.status = t.status) ∧ (∀ v, r.status = some v → t'.status = v)) ∧
    ((r.position = none → t'.position = t.position) ∧
      (∀ v, r.position = some v → t'.position = v)) ∧
    t'.id = t.id ∧ t'.created_at = t.created_at ∧ t'.updated_at = now := by
  unfold updateTask at hok
  simp only [hfind] at hok
  split_ifs at hok with h1 h2 h3
  · injection hok with hok
    subst hok
    refine ⟨⟨fun h => by simp [mergeRow, h], fun v h => by simp [mergeRow, h]⟩,
      ⟨fun h => by simp [mergeRow, h], fun v h => by simp [mergeRow, h]⟩,
      ⟨fun h => by simp [mergeRow, h], fun v h => by simp [mergeRow, h]⟩,
      ⟨fun h => by simp [mergeRow, h], fun v h => by simp [mergeRow, h]⟩,
      ⟨fun h => by simp [mergeRow, h], fun v h => by simp [mergeRow, h]⟩,
      ⟨fun h => by simp [mergeRow, h], fun v h => by simp [mergeRow, h]⟩,
      rfl, rfl, rfl⟩

/-- Witness for C1: updating the fixture task with priority 0 and empty
title overwrites both (value-presence merge), while the untouched owner
field is retained. -/
theorem spec_C1_witness :
    ({ exTask1 with title := "", priority := 0, updated_at := 9 } : Task).title = "" ∧
    ({ exTask1 with title := "", priority := 0, updated_at := 9 } : Task).priority = 0 ∧
    ({ exTask1 with title := "", priority := 0, updated_at := 9 } : Task).owner = exTask1.owner := by
  obtain ⟨⟨-, ht⟩, -, ⟨how, -⟩, ⟨-, hp⟩, -⟩ :=
    spec_C1 exDb1 9 1 { title := some "", priority := some 0 } exTask1
      { exTask1 with title := "", priority := 0, updated_at := 9 } (by decide) (by decide)
  exact ⟨ht "" rfl, hp 0 rfl, how rfl⟩

lemma moveStatusFail_iff (r : MoveReq) :
    (!truthyStr r.status || !(statusValues.contains (r.status.getD ""))) = true ↔
      (r.status = none ∨ ∃ s, r.status = some s ∧ s ∉ statusValues) := by
  cases r.status with
  | none => simp [truthyStr]
  | some s =>
    by_cases he : s = ""
    · subst he
      simp [truthyStr]
      decide
    · simp [truthyStr, he, statusValues, List.contains]

/-- Claim C3: Move fails with NotFoundError exactly when no task has the
requested id, fails with ValidationError exactly when the task exists and
the status is missing or outside the three-value enum, and in every
failing case (including an uncaught storage error) the database is
unchanged. -/
theorem spec_C3 (db : Db) (now id : Nat) (r : MoveReq) :
    ((moveTask db now id r).1 = .notFound "Task not found" ↔ findTask db id = none) ∧
    ((∃ m, (moveTask db now id r).1 = .badRequest m) ↔
      ((findTask db id).isSome = true ∧
        (r.status = none ∨ ∃ s, r.status = some s ∧ s ∉ statusValues))) ∧
    ((moveTask db now id r).1.isErr = true → (moveTask db now id r).2.1 = db) := by
  unfold moveTask
  cases hf : findTask db id with
  | none => simp
  | some t =>
    by_cases hs : (!truthyStr r.status || !(statusValues.contains (r.status.getD ""))) = true
    · simp only [hs, if_true]
      refine ⟨by simp, ?_, by simp⟩
      exact iff_of_true ⟨_, rfl⟩ ⟨rfl, (moveStatusFail_iff r).mp hs⟩
    · rw [Bool.not_eq_true] at hs
      simp only [hs, Bool.false_eq_true, if_false]
      have hnofail : ¬(r.status = none ∨ ∃ s, r.status = some s ∧ s ∉ statusValues) := by
        intro hcond
        have hmf := (moveStatusFail_iff r).mpr hcond
        rw [hs] at hmf
        exact Bool.false_ne_true hmf
      refine ⟨?_, ?_, ?_⟩
      · split_ifs <;> simp
      · constructor
        · rintro ⟨m, hm⟩
          split_ifs at hm
        · rintro ⟨-, hcond⟩
          exact absurd hcond hnofail
      · intro herr
        split_ifs at herr ⊢ with hrow
        · simp [Resp.isErr] at herr
        · rfl

/-- Witness for C3: moving an unknown id answers 404 with the database
unchanged, and a move without a status on the fixture database answers
400 with the database unchanged. -/
theorem spec_C3_witness :
    ((moveTask Db.empty 0 1 { status := some "done" }).1 = .notFound "Task not found" ↔
      findTask Db.empty 1 = none) ∧
    ((∃ m, (moveTask exDb1 0 1 ({} : MoveReq)).1 = .badRequest m) ↔
      ((findTask exDb1 1).isSome = true ∧
        ((({} : MoveReq)).status = none ∨
          ∃ s, (({} : MoveReq)).status = some s ∧ s ∉ statusValues))) ∧
    ((moveTask exDb1 0 1 ({} : MoveReq)).2.1 = exDb1) :=
  ⟨(spec_C3 Db.empty 0 1 { status := some "done" }).1,
   (spec_C3 exDb1 0 1 {}).2.1,
   (spec_C3 exDb1 0 1 {}).2.2 (by decide)⟩

/-- Claim C4: every successful Create, Update, Move and Delete emits
exactly one broadcast event and every failed one emits none; create emits
"task-created" with the full resulting row, update and move both emit
"task-updated" with the full resulting row (movement is not a distinct
event kind), delete emits "task-deleted" carrying only the id; a
broadcast reaches every currently subscribed client. -/
theorem spec_C4 :
    (∀ db now r,
      (∃ t, (createTask db now r).1 = .created t ∧
        (createTask db now r).2.2 = [.taskCreated t] ∧
        eventName (.taskCreated t) = "task-created") ∨
      ((createTask db now r).1.isErr = true ∧ (createTask db now r).2.2 = [])) ∧
    (∀ db now id r,
      (∃ t, (updateTask db now id r).1 = .ok t ∧
        (updateTask db now id r).2.2 = [.taskUpdated t] ∧
        eventName (.taskUpdated t) = "task-updated") ∨
      ((updateTask db now id r).1.isErr = true ∧ (updateTask db now id r).2.2 = [])) ∧
    (∀ db now id r,
      (∃ t, (moveTask db now id r).1 = .ok t ∧
        (moveTask db now id r).2.2 = [.taskUpdated t] ∧
        eventName (.taskUpdated t) = "task-updated") ∨
      ((moveTask db now id r).1.isErr = true ∧ (moveTask db now id r).2.2 = [])) ∧
    (∀ db id,
      ((deleteTask db id).1 = .noContent ∧
        (deleteTask db id).2.2 = [.taskDeleted id] ∧
        eventName (.taskDeleted id) = "task-deleted") ∨
      ((deleteTask db id).1.isErr = true ∧ (deleteTask db id).2.2 = [])) ∧
    (∀ subs (e : Event) c, c ∈ subs → (c, e) ∈ broadcastAll subs e) := by
  refine ⟨?_, ?_, ?_, ?_, ?_⟩
  · intro db now r
    unfold createTask
    split_ifs
    · exact Or.inr ⟨rfl, rfl⟩
    · exact Or.inr ⟨rfl, rfl⟩
    · exact Or.inr ⟨rfl, rfl⟩
    · dsimp only
      split_ifs
      · exact Or.inl ⟨_, rfl, rfl, rfl⟩
      · exact Or.inr ⟨rfl, rfl⟩
  · intro db now id r
    unfold updateTask
    cases hf : findTask db id with
    | none => exact Or.inr ⟨rfl, rfl⟩
    | some t =>
      split_ifs
      · exact Or.inr ⟨rfl, rfl⟩
      · exact Or.inr ⟨rfl, rfl⟩
      · dsimp only
        split_ifs
        · exact Or.inl ⟨_, rfl, rfl, rfl⟩
        · exact Or.inr ⟨rfl, rfl⟩
  · intro db now id r
    unfold moveTask
    cases hf : findTask db id with
    | none => exact Or.inr ⟨rfl, rfl⟩
    | some t =>
      split_ifs
      · exact Or.inr ⟨rfl, rfl⟩
      · dsimp only
        split_ifs
        · exact Or.inl ⟨_, rfl, rfl, rfl⟩
        · exact Or.inr ⟨rfl, rfl⟩
  · intro db id
    unfold deleteTask
    cases hf : findTask db id with
    | none => exact Or.inr ⟨rfl, rfl⟩
    | some t => exact Or.inl ⟨rfl, rfl, rfl⟩
  · intro subs e c hc
    unfold broadcastAll
    exact List.mem_map.mpr ⟨c, hc, rfl⟩

/-- Witness for C4: with two subscribed clients, a broadcast frame is
delivered to client 1. -/
theorem spec_C4_witness :
    (1, Event.taskDeleted 3) ∈ broadcastAll [1, 2] (Event.taskDeleted 3) :=
  spec_C4.2.2.2.2 [1, 2] (Event.taskDeleted 3) 1 (by decide)

lemma truthyStr_eq_false_iff (x : Option String) :
    truthyStr x = false ↔ (x = none ∨ x = some "") := by
  cases x <;> simp [truthyStr]

lemma truthyStr_eq_true_iff (x : Option String) :
    truthyStr x = true ↔ (∃ s, x = some s ∧ s ≠ "") := by
  cases x <;> simp [truthyStr]

lemma contains_eq_true_iff (l : List String) (s : String) :
    l.contains s = true ↔ s ∈ l := by
  simp [List.elem_iff]

/-- Counterexample for C2: a create request whose status key is supplied
as the empty string (a value outside the three-value enum) does not fail;
the handler's truthiness guard skips the enum check and the status
defaults to backlog, refuting the claimed "fails if and only if". -/
theorem spec_C2_counterexample :
    ({ title := some "T", owner := some "oracle", status := some "" } : CreateReq).status =
        some "" ∧
    statusValues.contains "" = false ∧
    (createTask Db.empty 0
        { title := some "T", owner := some "oracle", status := some "" }).1.isErr = false := by
  decide

/-- Claim C2 (amended): Create fails with ValidationError exactly when the
title is falsy (missing, null or the empty string), or the owner is
missing or not in the two-value enum, or a status is supplied with a
truthy (non-empty) value outside the three-value enum; an empty-string
status is treated as absent and defaults to backlog.  In every failing
case no row is inserted and nothing is broadcast. -/
theorem spec_C2 (db : Db) (now : Nat) (r : CreateReq) :
    ((∃ m, (createTask db now r).1 = .badRequest m) ↔
      (r.title = none ∨ r.title = some "" ∨ r.owner = none ∨
        (∃ o, r.owner = some o ∧ o ∉ ownerValues) ∨
        (∃ s, r.status = some s ∧ s ≠ "" ∧ s ∉ statusValues))) ∧
    (∀ m, (createTask db now r).1 = .badRequest m →
      (createTask db now r).2.1 = db ∧ (createTask db now r).2.2 = []) := by
  unfold createTask
  split_ifs with h1 h2 h3
  · refine ⟨iff_of_true ⟨_, rfl⟩ ?_, fun m _ => ⟨rfl, rfl⟩⟩
    rcases Bool.or_eq_true_iff.mp h1 with ht | ho
    · rcases (truthyStr_eq_false_iff r.title).mp (by simpa using ht) with h | h
      · exact Or.inl h
      · exact Or.inr (Or.inl h)
    · rcases (truthyStr_eq_false_iff r.owner).mp (by simpa using ho) with h | h
      · exact Or.inr (Or.inr (Or.inl h))
      · exact Or.inr (Or.inr (Or.inr (Or.inl ⟨"", h, by decide⟩)))
  · refine ⟨iff_of_true ⟨_, rfl⟩ ?_, fun m _ => ⟨rfl, rfl⟩⟩
    have h1' : truthyStr r.owner = true := by
      rcases Bool.or_eq_false_iff.mp (Bool.eq_false_iff.mpr h1) with ⟨-, ho⟩
      simpa using ho
    obtain ⟨o, hoeq, -⟩ := (truthyStr_eq_true_iff r.owner).mp h1'
    refine Or.inr (Or.inr (Or.inr (Or.inl ⟨o, hoeq, ?_⟩)))
    intro hmem
    have hc : ownerValues.contains (r.owner.getD "") = true := by
      rw [hoeq]
      exact (contains_eq_true_iff _ _).mpr hmem
    rw [hc] at h2
    exact absurd h2 (by simp)
  · refine ⟨iff_of_true ⟨_, rfl⟩ ?_, fun m _ => ⟨rfl, rfl⟩⟩
    obtain ⟨hts, hnc⟩ := Bool.and_eq_true_iff.mp h3
    obtain ⟨s, hseq, hsne⟩ := (truthyStr_eq_true_iff r.status).mp hts
    refine Or.inr (Or.inr (Or.inr (Or.inr ⟨s, hseq, hsne, ?_⟩)))
    intro hmem
    rw [hseq] at hnc
    simp only [Option.getD_some] at hnc
    rw [(contains_eq_true_iff _ _).mpr hmem] at hnc
    exact absurd hnc (by simp)
  · have htitle : truthyStr r.title = true := by
      rcases Bool.or_eq_false_iff.mp (Bool.eq_false_iff.mpr h1) with ⟨ht, -⟩
      simpa using ht
    have howner : truthyStr r.owner = true := by
      rcases Bool.or_eq_false_iff.mp (Bool.eq_false_iff.mpr h1) with ⟨-, ho⟩
      simpa using ho
    have hoc : ownerValues.contains (r.owner.getD "") = true := by
      have h2f : (!(ownerValues.contains (r.owner.getD ""))) = false := Bool.eq_false_iff.mpr h2
      simpa using h2f
    dsimp only
    split_ifs with h4
    · refine ⟨iff_of_false ?_ ?_, fun m hm => absurd hm (by simp)⟩
      · rintro ⟨m, hm⟩
        exact absurd hm (by simp)
      · rintro (h | h | h | ⟨o, ho, hno⟩ | ⟨s, hs, hne, hns⟩)
        · rw [h] at htitle
          exact absurd htitle (by simp [truthyStr])
        · rw [h] at htitle
          exact absurd htitle (by simp [truthyStr])
        · rw [h] at howner
          exact absurd howner (by simp [truthyStr])
        · rw [ho] at hoc
          simp only [Option.getD_some] at hoc
          exact hno ((contains_eq_true_iff _ _).mp hoc)
        · apply h3
          rw [hs]
          refine Bool.and_eq_true_iff.mpr ⟨by simp [truthyStr, hne], ?_⟩
          simp only [Option.getD_some]
          simp
          exact hns
    · exfalso
      apply h4
      unfold rowOk
      dsimp only
      refine Bool.and_eq_true_iff.mpr ⟨hoc, ?_⟩
      cases hst : r.status with
      | none => decide
      | some s =>
        simp only [jsOrStr]
        by_cases hse : (s == "") = true
        · rw [if_pos hse]
          decide
        · rw [if_neg hse]
          rw [hst] at h3
          by_cases hcs : statusValues.contains s = true
          · exact hcs
          · exfalso
            apply h3
            have hsef : (s == "") = false := Bool.eq_false_iff.mpr hse
            refine Bool.and_eq_true_iff.mpr ⟨?_, ?_⟩
            · show (!(s == "")) = true
              rw [hsef]
              rfl
            · simp only [Option.getD_some]
              rw [Bool.eq_false_iff.mpr hcs]
              rfl

/-- Witness for C2 (amended): a create with a missing owner answers 400
and leaves the database unchanged with no broadcast. -/
theorem spec_C2_witness :
    (createTask Db.empty 0 ({ title := some "T" } : CreateReq)).2.1 = Db.empty ∧
    (createTask Db.empty 0 ({ title := some "T" } : CreateReq)).2.2 = [] :=
  (spec_C2 Db.empty 0 { title := some "T" }).2 "Title and owner are required" (by decide)

/-- Counterexample for C6: filtering by the supplied empty-string owner
value returns the whole table (the handler's truthiness guard treats "" as
no filter), not the set of tasks whose owner equals "", refuting the
claim for that supplied filter value. -/
theorem spec_C6_counterexample :
    listTasks exDb1 (some "") = [exTask1] ∧ exTask1.owner ≠ "" := by
  decide

/-- Claim C6 (amended): for every non-empty supplied filter value the list
result contains exactly the tasks whose owner equals that value — also for
arbitrary values outside the two-value owner enum, which simply match
nothing and never produce a validation error; a supplied empty-string
filter is treated as no filter and returns every task. -/
theorem spec_C6 (db : Db) (o : String) (ho : o ≠ "") (t : Task) :
    t ∈ listTasks db (some o) ↔ (t ∈ db.rows ∧ t.owner = o) := by
  unfold listTasks applyOwnerFilter
  rw [List.mem_insertionSort]
  simp [truthyStr, ho, List.mem_filter]

/-- Witness for C6 (amended): filtering the fixture database by the
out-of-enum owner value "nobody" matches nothing. -/
theorem spec_C6_witness :
    exTask1 ∈ listTasks exDb1 (some "nobody") ↔
      (exTask1 ∈ exDb1.rows ∧ exTask1.owner = "nobody") :=
  spec_C6 exDb1 "nobody" (by decide) exTask1

/-- Counterexample for C7: a create supplying the integer priority 0 does
not store it as given; the falsy-defaulting `priority || 1` stores 1
instead, refuting "any supplied integer priority is stored as given". -/
theorem spec_C7_counterexample :
    ({ title := some "A", owner := some "oracle", priority := some 0 } : CreateReq).priority =
      some 0 ∧
    (createTask Db.empty 5 { title := some "A", owner := some "oracle", priority := some 0 }).1 =
      .created ⟨1, "A", "", "oracle", 1, "backlog", 0, 5, 5⟩ ∧
    (1 : Int) ≠ 0 := by
  decide

/-- Claim C7 (amended): every valid Create returns a row with description
"" when omitted, status "backlog" when omitted, created_at equal to
updated_at (both the request time), priority defaulting to 1 when omitted
and also when supplied as 0 (JavaScript falsy), while any supplied
nonzero integer priority (with no enforced range) is stored as given. -/
theorem spec_C7 (db : Db) (now : Nat) (r : CreateReq) (t : Task)
    (h : (createTask db now r).1 = .created t) :
    (r.description = none → t.description = "") ∧
    (r.status = none → t.status = "backlog") ∧
    t.created_at = now ∧ t.updated_at = now ∧ t.created_at = t.updated_at ∧
    (r.priority = none → t.priority = 1) ∧
    (r.priority = some 0 → t.priority = 1) ∧
    (∀ p, r.priority = some p → p ≠ 0 → t.priority = p) := by
  unfold createTask at h
  split_ifs at h with h1 h2 h3
  dsimp only at h
  split_ifs at h with h4
  injection h with h
  subst h
  refine ⟨fun hd => by simp [jsOrStr, hd], fun hs => by simp [jsOrStr, hs], rfl, rfl, rfl,
    fun hp => by simp [jsOrInt, hp], fun hp => by simp [jsOrInt, hp],
    fun p hp hne => by simp [jsOrInt, hp, hne]⟩

/-- Witness for C7 (amended): the row created from a minimal valid request
carries the documented defaults. -/
theorem spec_C7_witness :
    (⟨1, "A", "", "oracle", 1, "backlog", 0, 5, 5⟩ : Task).description = "" ∧
    (⟨1, "A", "", "oracle", 1, "backlog", 0, 5, 5⟩ : Task).status = "backlog" ∧
    (⟨1, "A", "", "oracle", 1, "backlog", 0, 5, 5⟩ : Task).priority = 1 := by
  obtain ⟨hd, hs, -, -, -, hp, -, -⟩ :=
    spec_C7 Db.empty 5 { title := some "A", owner := some "oracle" }
      ⟨1, "A", "", "oracle", 1, "backlog", 0, 5, 5⟩ (by decide)
  exact ⟨hd rfl, hs rfl, hp rfl⟩

lemma filter_out_id_length :
    ∀ (rows : List Task) (id : Nat), idsUniqueB rows = true →
      ∀ t ∈ rows, t.id = id →
        (rows.filter fun u => !(u.id == id)).length + 1 = rows.length := by
  intro rows
  induction rows with
  | nil =>
    intro id _ t ht
    simp at ht
  | cons x xs ih =>
    intro id hu t ht htid
    obtain ⟨hx, hxs⟩ := Bool.and_eq_true_iff.mp hu
    rcases List.mem_cons.mp ht with rfl | hmem
    · subst htid
      have hpx : (!(t.id == t.id)) = false := by simp
      simp only [List.filter_cons, hpx, Bool.false_eq_true, if_false]
      have hall : xs.filter (fun u => !(u.id == t.id)) = xs := by
        apply List.filter_eq_self.mpr
        intro u hu'
        exact (List.all_eq_true.mp hx) u hu'
      rw [hall]
      simp
    · have htxid : t.id ≠ x.id := by
        have hne := (List.all_eq_true.mp hx) t hmem
        simpa using hne
      have hpx : (!(x.id == id)) = true := by
        simp
        omega
      simp only [List.filter_cons, hpx, if_true]
      simp only [List.length_cons]
      have hrec := ih id hxs t hmem htid
      omega

/-- Claim C9: deleting an unknown id answers 404 and leaves the database
unchanged; deleting an existing id answers 204 and removes exactly that
row: any subsequent read of the id (lookup, repeated delete, update)
yields NotFound, every other row survives byte-for-byte (positions of
siblings included), row order and the id counter are untouched, and with
unique primary keys exactly one row disappears. -/
theorem spec_C9 (db : Db) (id : Nat) :
    (findTask db id = none →
      (deleteTask db id).1 = .notFound "Task not found" ∧ (deleteTask db id).2.1 = db) ∧
    ((findTask db id).isSome = true →
      (deleteTask db id).1 = .noContent ∧
      (deleteTask db id).2.1.nextId = db.nextId ∧
      findTask (deleteTask db id).2.1 id = none ∧
      (deleteTask (deleteTask db id).2.1 id).1 = .notFound "Task not found" ∧
      (∀ now r, (updateTask (deleteTask db id).2.1 now id r).1 = .notFound "Task not found") ∧
      (∀ t ∈ db.rows, t.id ≠ id → t ∈ (deleteTask db id).2.1.rows) ∧
      (∀ t ∈ (deleteTask db id).2.1.rows, t ∈ db.rows ∧ t.id ≠ id) ∧
      (deleteTask db id).2.1.rows.Sublist db.rows ∧
      (idsUniqueB db.rows = true →
        (deleteTask db id).2.1.rows.length + 1 = db.rows.length)) := by
  constructor
  · intro hf
    unfold deleteTask
    simp [hf]
  · intro hsome
    cases hf : findTask db id with
    | none =>
      rw [hf] at hsome
      simp at hsome
    | some t0 =>
      have hfind' : findTask ⟨db.rows.filter (fun t => !(t.id == id)), db.nextId⟩ id = none := by
        unfold findTask
        apply List.find?_eq_none.mpr
        intro x hx
        have hxne := (List.mem_filter.mp hx).2
        simpa using hxne
      unfold deleteTask
      simp only [hf]
      refine ⟨by trivial, by trivial, hfind', ?_, ?_, ?_, ?_, ?_, ?_⟩
      · simp only [hfind']
      · intro now r
        unfold updateTask
        simp only [hfind']
      · intro t ht hne
        apply List.mem_filter.mpr
        exact ⟨ht, by simp [hne]⟩
      · intro t ht
        obtain ⟨htm, htp⟩ := List.mem_filter.mp ht
        refine ⟨htm, ?_⟩
        simpa using htp
      · exact List.filter_sublist _
      · intro hu
        have ht0 : t0 ∈ db.rows := List.mem_of_find?_eq_some hf
        have ht0id : t0.id = id := by
          have hp := List.find?_some hf
          simpa using hp
        exact filter_out_id_length db.rows id hu t0 ht0 ht0id

/-- Witness for C9: deleting the only row of the fixture database empties
it (404 on re-delete), and deleting an unknown id answers 404 with the
database unchanged. -/
theorem spec_C9_witness :
    ((deleteTask exDb1 7).1 = .notFound "Task not found" ∧ (deleteTask exDb1 7).2.1 = exDb1) ∧
    ((deleteTask exDb1 1).1 = .noContent ∧
      findTask (deleteTask exDb1 1).2.1 1 = none ∧
      (deleteTask exDb1 1).2.1.rows.length + 1 = exDb1.rows.length) := by
  refine ⟨(spec_C9 exDb1 7).1 (by decide), ?_⟩
  obtain ⟨ha, -, hb, -, -, -, -, -, hc⟩ := (spec_C9 exDb1 1).2 (by decide)
  exact ⟨ha, hb, hc (by decide)⟩

lemma all_map_fun {α β : Type} (l : List α) (f : α → β) (p : β → Bool) :
    (l.map f).all p = l.all (fun a => p (f a)) := by
  induction l with
  | nil => rfl
  | cons x xs ih => simp only [List.map_cons, List.all_cons, ih]

lemma idsUniqueB_eq_natsUniqueB (rows : List Task) :
    idsUniqueB rows = natsUniqueB (rows.map (fun t => t.id)) := by
  induction rows with
  | nil => rfl
  | cons x xs ih =>
    simp only [idsUniqueB, natsUniqueB, List.map_cons, ih]
    rw [all_map_fun]

lemma natsUniqueB_append : ∀ (l : List Nat) (n : Nat), natsUniqueB l = true →
    (∀ m ∈ l, m ≠ n) → natsUniqueB (l ++ [n]) = true := by
  intro l
  induction l with
  | nil =>
    intro n _ _
    rfl
  | cons x xs ih =>
    intro n hu hn
    obtain ⟨hx, hxs⟩ := Bool.and_eq_true_iff.mp hu
    have hxn : n ≠ x := by
      intro he
      exact hn x (List.mem_cons_self x xs) he.symm
    have h1 : ((xs ++ [n]).all fun m => !(m == x)) = true := by
      rw [List.all_append]
      refine Bool.and_eq_true_iff.mpr ⟨hx, ?_⟩
      simp [hxn]
    have h2 := ih n hxs (fun m hm => hn m (List.mem_cons_of_mem x hm))
    show (((xs ++ [n]).all fun m => !(m == x)) && natsUniqueB (xs ++ [n])) = true
    rw [h1, h2]
    rfl

lemma all_of_sublist {p : Task → Bool} {l' l : List Task} (h : l'.Sublist l)
    (ha : l.all p = true) : l'.all p = true := by
  rw [List.all_eq_true] at ha ⊢
  exact fun x hx => ha x (h.subset hx)

lemma natsUniqueB_sublist : ∀ {l' l : List Nat}, l'.Sublist l →
    natsUniqueB l = true → natsUniqueB l' = true := by
  intro l' l h
  induction h with
  | slnil => intro _; rfl
  | cons n _ ih =>
    intro hu
    exact ih (Bool.and_eq_true_iff.mp hu).2
  | cons₂ n hsub ih =>
    intro hu
    obtain ⟨hall, hrest⟩ := Bool.and_eq_true_iff.mp hu
    refine Bool.and_eq_true_iff.mpr ⟨?_, ih hrest⟩
    rw [List.all_eq_true] at hall ⊢
    exact fun m hm => hall m (hsub.subset hm)

lemma mem_unique_id : ∀ {rows : List Task}, idsUniqueB rows = true →
    ∀ {t u : Task}, t ∈ rows → u ∈ rows → u.id = t.id → u = t := by
  intro rows
  induction rows with
  | nil =>
    intro _ t u ht
    simp at ht
  | cons x xs ih =>
    intro h t u ht hu hid
    obtain ⟨h1, h2⟩ := Bool.and_eq_true_iff.mp h
    have hne : ∀ v ∈ xs, v.id ≠ x.id := by
      intro v hv
      have hb := (List.all_eq_true.mp h1) v hv
      simpa using hb
    rcases List.mem_cons.mp ht with rfl | ht' <;> rcases List.mem_cons.mp hu with rfl | hu'
    · rfl
    · exact absurd hid (hne u hu')
    · exact absurd hid.symm (hne t ht')
    · exact ih h2 ht' hu' hid

lemma dbIdsOkB_unique {db : Db} (h : dbIdsOkB db = true) : idsUniqueB db.rows = true :=
  (Bool.and_eq_true_iff.mp h).1

lemma dbIdsOkB_lt {db : Db} (h : dbIdsOkB db = true) :
    ∀ t ∈ db.rows, t.id < db.nextId := by
  intro t ht
  have hb := (List.all_eq_true.mp (Bool.and_eq_true_iff.mp h).2) t ht
  simpa using hb

lemma timeOkB_mem {c : Nat} {db : Db} (h : timeOkB c db = true) :
    ∀ t ∈ db.rows, t.created_at ≤ t.updated_at ∧ t.updated_at ≤ c := by
  intro t ht
  have hb := (List.all_eq_true.mp h) t ht
  simpa using hb

lemma timeOkB_of_mem {c : Nat} {db : Db}
    (h : ∀ t ∈ db.rows, t.created_at ≤ t.updated_at ∧ t.updated_at ≤ c) :
    timeOkB c db = true := by
  rw [timeOkB, List.all_eq_true]
  intro t ht
  obtain ⟨h1, h2⟩ := h t ht
  simp [h1, h2]

lemma timeOkB_mono {c c' : Nat} {db : Db} (hcc : c ≤ c') (h : timeOkB c db = true) :
    timeOkB c' db = true := by
  apply timeOkB_of_mem
  intro t ht
  obtain ⟨h1, h2⟩ := timeOkB_mem h t ht
  exact ⟨h1, le_trans h2 hcc⟩

lemma replaceRow_ids (db : Db) (i : Nat) (t' : Task) (h : t'.id = i) :
    (replaceRow db i t').rows.map (fun t => t.id) = db.rows.map (fun t => t.id) := by
  unfold replaceRow
  rw [List.map_map]
  apply List.map_congr_left
  intro a _
  simp only [Function.comp_apply]
  by_cases hb : (a.id == i) = true
  · rw [if_pos hb, h]
    have haid : a.id = i := by simpa using hb
    exact haid.symm
  · rw [if_neg hb]

lemma dbIdsOkB_of_map_eq {db1 db2 : Db}
    (h : db1.rows.map (fun t => t.id) = db2.rows.map (fun t => t.id))
    (hn : db1.nextId = db2.nextId) : dbIdsOkB db1 = dbIdsOkB db2 := by
  unfold dbIdsOkB
  rw [idsUniqueB_eq_natsUniqueB, idsUniqueB_eq_natsUniqueB, h, hn]
  congr 1
  have e1 : db1.rows.all (fun t => decide (t.id < db2.nextId)) =
      (db1.rows.map (fun t => t.id)).all (fun i => decide (i < db2.nextId)) :=
    (all_map_fun db1.rows (fun t => t.id) (fun i => decide (i < db2.nextId))).symm
  have e2 : db2.rows.all (fun t => decide (t.id < db2.nextId)) =
      (db2.rows.map (fun t => t.id)).all (fun i => decide (i < db2.nextId)) :=
    (all_map_fun db2.rows (fun t => t.id) (fun i => decide (i < db2.nextId))).symm
  rw [e1, e2, h]

lemma applyOp_shape (db : Db) (now : Nat) (op : Op) :
    applyOp db now op = db ∨
    (∃ t : Task, t.id = db.nextId ∧ t.created_at = now ∧ t.updated_at = now ∧
      applyOp db now op = ⟨db.rows ++ [t], db.nextId + 1⟩) ∨
    (∃ (i : Nat) (t0 t' : Task), findTask db i = some t0 ∧ t0.id = i ∧ t'.id = t0.id ∧
      t'.created_at = t0.created_at ∧ t'.updated_at = now ∧
      applyOp db now op = replaceRow db i t') ∨
    (∃ i : Nat, applyOp db now op = ⟨db.rows.filter (fun t => !(t.id == i)), db.nextId⟩) := by
  cases op with
  | createOp r =>
    unfold applyOp createTask
    dsimp only
    split_ifs
    · exact Or.inl rfl
    · exact Or.inl rfl
    · exact Or.inl rfl
    · exact Or.inr (Or.inl ⟨_, rfl, rfl, rfl, rfl⟩)
    · exact Or.inl rfl
  | updateOp i r =>
    unfold applyOp updateTask
    dsimp only
    cases hf : findTask db i with
    | none => exact Or.inl rfl
    | some t0 =>
      have ht0i : t0.id = i := by
        have hp := List.find?_some hf
        simpa using hp
      dsimp only
      split_ifs
      · exact Or.inl rfl
      · exact Or.inl rfl
      · exact Or.inr (Or.inr (Or.inl
          ⟨i, t0, mergeRow r now t0, hf, ht0i, rfl, rfl, rfl, rfl⟩))
      · exact Or.inl rfl
  | moveOp i r =>
    unfold applyOp moveTask
    dsimp only
    cases hf : findTask db i with
    | none => exact Or.inl rfl
    | some t0 =>
      have ht0i : t0.id = i := by
        have hp := List.find?_some hf
        simpa using hp
      dsimp only
      split_ifs
      · exact Or.inl rfl
      · exact Or.inr (Or.inr (Or.inl
          ⟨i, t0,
            { t0 with
              status := r.status.getD ""
              position := jsOrInt r.position 0
              updated_at := now },
            hf, ht0i, rfl, rfl, rfl, rfl⟩))
      · exact Or.inl rfl
  | deleteOp i =>
    unfold applyOp deleteTask
    dsimp only
    cases hf : findTask db i with
    | none => exact Or.inl rfl
    | some t0 => exact Or.inr (Or.inr (Or.inr ⟨i, rfl⟩))

lemma applyOp_nextId_mono (db : Db) (now : Nat) (op : Op) :
    db.nextId ≤ (applyOp db now op).nextId := by
  rcases applyOp_shape db now op with heq | ⟨t, -, -, -, heq⟩ |
      ⟨i, t0, t', -, -, -, -, -, heq⟩ | ⟨i, heq⟩
  · rw [heq]
  · rw [heq]
    exact Nat.le_succ _
  · rw [heq]
    exact le_refl _
  · rw [heq]

lemma step_dbIdsOk (db : Db) (now : Nat) (op : Op) (h : dbIdsOkB db = true) :
    dbIdsOkB (applyOp db now op) = true := by
  rcases applyOp_shape db now op with heq | ⟨t, hid, -, -, heq⟩ |
      ⟨i, t0, t', hf, ht0i, htid, -, -, heq⟩ | ⟨i, heq⟩
  · rw [heq]
    exact h
  · rw [heq]
    refine Bool.and_eq_true_iff.mpr ⟨?_, ?_⟩
    · rw [idsUniqueB_eq_natsUniqueB]
      show natsUniqueB ((db.rows ++ [t]).map (fun u => u.id)) = true
      rw [List.map_append, List.map_cons, List.map_nil]
      apply natsUniqueB_append
      · rw [← idsUniqueB_eq_natsUniqueB]
        exact dbIdsOkB_unique h
      · intro m hm
        rw [List.mem_map] at hm
        obtain ⟨u, hu, humid⟩ := hm
        have hlt := dbIdsOkB_lt h u hu
        rw [hid, ← humid]
        omega
    · rw [List.all_eq_true]
      intro u hu
      rw [decide_eq_true_iff]
      rcases List.mem_append.mp hu with hu' | hu'
      · have hlt := dbIdsOkB_lt h u hu'
        show u.id < db.nextId + 1
        omega
      · simp at hu'
        subst hu'
        show u.id < db.nextId + 1
        rw [hid]
        omega
  · rw [heq]
    rw [dbIdsOkB_of_map_eq (replaceRow_ids db i t' (htid.trans ht0i)) rfl]
    exact h
  · rw [heq]
    refine Bool.and_eq_true_iff.mpr ⟨?_, ?_⟩
    · rw [idsUniqueB_eq_natsUniqueB]
      apply natsUniqueB_sublist ((List.filter_sublist _).map _)
      rw [← idsUniqueB_eq_natsUniqueB]
      exact dbIdsOkB_unique h
    · rw [List.all_eq_true]
      intro u hu
      rw [decide_eq_true_iff]
      have hum := (List.filter_sublist db.rows).subset hu
      exact dbIdsOkB_lt h u hum

lemma step_timeOk (db : Db) (c now : Nat) (op : Op) (ht : timeOkB c db = true)
    (hc : c ≤ now) : timeOkB now (applyOp db now op) = true := by
  rcases applyOp_shape db now op with heq | ⟨t, -, hncr, hnup, heq⟩ |
      ⟨i, t0, t', hf, -, -, hcr, hup, heq⟩ | ⟨i, heq⟩
  · rw [heq]
    exact timeOkB_mono hc ht
  · rw [heq]
    apply timeOkB_of_mem
    intro u hu
    rcases List.mem_append.mp hu with hu' | hu'
    · obtain ⟨h1, h2⟩ := timeOkB_mem ht u hu'
      exact ⟨h1, le_trans h2 hc⟩
    · simp at hu'
      subst hu'
      rw [hncr, hnup]
      exact ⟨le_refl now, le_refl now⟩
  · rw [heq]
    apply timeOkB_of_mem
    intro u hu
    rw [replaceRow] at hu
    simp only [List.mem_map] at hu
    obtain ⟨orig, horig, hcase⟩ := hu
    by_cases hb : (orig.id == i) = true
    · rw [if_pos hb] at hcase
      subst hcase
      have ht0mem : t0 ∈ db.rows := List.mem_of_find?_eq_some hf
      obtain ⟨h1, h2⟩ := timeOkB_mem ht t0 ht0mem
      rw [hcr, hup]
      exact ⟨le_trans h1 (le_trans h2 hc), le_refl now⟩
    · rw [if_neg hb] at hcase
      subst hcase
      obtain ⟨h1, h2⟩ := timeOkB_mem ht orig horig
      exact ⟨h1, le_trans h2 hc⟩
  · rw [heq]
    apply timeOkB_of_mem
    intro u hu
    have hum := (List.filter_sublist db.rows).subset hu
    obtain ⟨h1, h2⟩ := timeOkB_mem ht u hum
    exact ⟨h1, le_trans h2 hc⟩

lemma step_hist (db : Db) (c now : Nat) (op : Op)
    (hids : dbIdsOkB db = true) (ht : timeOkB c db = true) (hc : c ≤ now) :
    ∀ t ∈ db.rows, ∀ u ∈ (applyOp db now op).rows, u.id = t.id →
      u.created_at = t.created_at ∧ t.updated_at ≤ u.updated_at := by
  intro t htm u hum hid
  rcases applyOp_shape db now op with heq | ⟨tn, hnid, -, -, heq⟩ |
      ⟨i, t0, t', hf, ht0i, htid', hcr, hup, heq⟩ | ⟨i, heq⟩
  · rw [heq] at hum
    cases mem_unique_id (dbIdsOkB_unique hids) htm hum hid
    exact ⟨rfl, le_refl _⟩
  · rw [heq] at hum
    rcases List.mem_append.mp hum with hu' | hu'
    · cases mem_unique_id (dbIdsOkB_unique hids) htm hu' hid
      exact ⟨rfl, le_refl _⟩
    · simp at hu'
      subst hu'
      exfalso
      have hlt := dbIdsOkB_lt hids t htm
      rw [hnid] at hid
      omega
  · rw [heq] at hum
    rw [replaceRow] at hum
    simp only [List.mem_map] at hum
    obtain ⟨orig, horig, hcase⟩ := hum
    by_cases hb : (orig.id == i) = true
    · rw [if_pos hb] at hcase
      subst hcase
      have ht0mem : t0 ∈ db.rows := List.mem_of_find?_eq_some hf
      have ht0t : t0.id = t.id := by
        rw [← htid']
        exact hid
      cases mem_unique_id (dbIdsOkB_unique hids) htm ht0mem ht0t
      refine ⟨hcr, ?_⟩
      rw [hup]
      obtain ⟨-, h2⟩ := timeOkB_mem ht _ ht0mem
      exact le_trans h2 hc
    · rw [if_neg hb] at hcase
      subst hcase
      cases mem_unique_id (dbIdsOkB_unique hids) htm horig hid
      exact ⟨rfl, le_refl _⟩
  · rw [heq] at hum
    have hum' := (List.filter_sublist db.rows).subset hum
    cases mem_unique_id (dbIdsOkB_unique hids) htm hum' hid
    exact ⟨rfl, le_refl _⟩

lemma step_ids (db : Db) (now : Nat) (op : Op) :
    ∀ u ∈ (applyOp db now op).rows, (∃ t ∈ db.rows, t.id = u.id) ∨ db.nextId ≤ u.id := by
  intro u hu
  rcases applyOp_shape db now op with heq | ⟨tn, hnid, -, -, heq⟩ |
      ⟨i, t0, t', hf, ht0i, htid', -, -, heq⟩ | ⟨i, heq⟩
  · rw [heq] at hu
    exact Or.inl ⟨u, hu, rfl⟩
  · rw [heq] at hu
    rcases List.mem_append.mp hu with h | h
    · exact Or.inl ⟨u, h, rfl⟩
    · simp at h
      subst h
      rw [hnid]
      exact Or.inr (le_refl _)
  · rw [heq] at hu
    rw [replaceRow] at hu
    simp only [List.mem_map] at hu
    obtain ⟨orig, horig, hcase⟩ := hu
    by_cases hb : (orig.id == i) = true
    · rw [if_pos hb] at hcase
      subst hcase
      refine Or.inl ⟨orig, horig, ?_⟩
      have hoi : orig.id = i := by simpa using hb
      rw [hoi, htid', ht0i]
    · rw [if_neg hb] at hcase
      subst hcase
      exact Or.inl ⟨orig, horig, rfl⟩
  · rw [heq] at hu
    exact Or.inl ⟨u, (List.filter_sublist db.rows).subset hu, rfl⟩

lemma trace_ids : ∀ (ops : List (Nat × Op)) (db : Db), dbIdsOkB db = true →
    ∀ u ∈ (execTrace db ops).rows, (∃ t ∈ db.rows, t.id = u.id) ∨ db.nextId ≤ u.id := by
  intro ops
  induction ops with
  | nil =>
    intro db _ u hu
    exact Or.inl ⟨u, hu, rfl⟩
  | cons p rest ih =>
    obtain ⟨now, op⟩ := p
    intro db hids u hu
    rcases ih (applyOp db now op) (step_dbIdsOk db now op hids) u hu with ⟨t1, ht1, hid1⟩ | hge
    · rcases step_ids db now op t1 ht1 with ⟨t, htm, hid⟩ | hge'
      · exact Or.inl ⟨t, htm, hid.trans hid1⟩
      · exact Or.inr (le_trans hge' (le_of_eq hid1))
    · exact Or.inr (le_trans (applyOp_nextId_mono db now op) hge)

lemma trace_hist : ∀ (ops : List (Nat × Op)) (c : Nat) (db : Db),
    dbIdsOkB db = true → timeOkB c db = true → stampsMonoB c ops = true →
    ∀ t ∈ db.rows, ∀ u ∈ (execTrace db ops).rows, u.id = t.id →
      u.created_at = t.created_at ∧ t.updated_at ≤ u.updated_at := by
  intro ops
  induction ops with
  | nil =>
    intro c db hids _ _ t htm u hum hid
    cases mem_unique_id (dbIdsOkB_unique hids) htm hum hid
    exact ⟨rfl, le_refl _⟩
  | cons p rest ih =>
    obtain ⟨now, op⟩ := p
    intro c db hids ht hmono t htm u hum hid
    obtain ⟨hcn, hmono'⟩ := Bool.and_eq_true_iff.mp hmono
    rw [decide_eq_true_iff] at hcn
    have hids1 := step_dbIdsOk db now op hids
    have htk1 := step_timeOk db c now op ht hcn
    by_cases hex : ∃ t1 ∈ (applyOp db now op).rows, t1.id = t.id
    · obtain ⟨t1, ht1m, ht1id⟩ := hex
      obtain ⟨hc1, hu1⟩ := step_hist db c now op hids ht hcn t htm t1 ht1m ht1id
      obtain ⟨hc2, hu2⟩ := ih now (applyOp db now op) hids1 htk1 hmono' t1 ht1m u hum
        (by rw [hid, ← ht1id])
      exact ⟨hc2.trans hc1, le_trans hu1 hu2⟩
    · exfalso
      rcases trace_ids rest (applyOp db now op) hids1 u hum with ⟨t1, ht1m, ht1id⟩ | hge
      · exact hex ⟨t1, ht1m, ht1id.trans hid⟩
      · have hlt := dbIdsOkB_lt hids t htm
        have hmn := applyOp_nextId_mono db now op
        omega

lemma trace_timeOk : ∀ (ops : List (Nat × Op)) (c : Nat) (db : Db),
    timeOkB c db = true → stampsMonoB c ops = true →
    timeOkB (endStamp c ops) (execTrace db ops) = true := by
  intro ops
  induction ops with
  | nil =>
    intro c db ht _
    exact ht
  | cons p rest ih =>
    obtain ⟨now, op⟩ := p
    intro c db ht hmono
    obtain ⟨hcn, hmono'⟩ := Bool.and_eq_true_iff.mp hmono
    rw [decide_eq_true_iff] at hcn
    exact ih now (applyOp db now op) (step_timeOk db c now op ht hcn) hmono'

/-- Claim C8: along every monotonically-clocked trace of mutating requests
over a well-formed database, a surviving row's created_at is never
modified and its updated_at is monotonically non-decreasing; every
successful Update and Move stamps updated_at with the current time; and
created_at <= updated_at holds for every row of every reachable state. -/
theorem spec_C8 :
    (∀ (ops : List (Nat × Op)) (c : Nat) (db : Db),
      dbIdsOkB db = true → timeOkB c db = true → stampsMonoB c ops = true →
      (∀ t ∈ db.rows, ∀ u ∈ (execTrace db ops).rows, u.id = t.id →
        u.created_at = t.created_at ∧ t.updated_at ≤ u.updated_at) ∧
      (∀ u ∈ (execTrace db ops).rows, u.created_at ≤ u.updated_at)) ∧
    (∀ (db : Db) (now id : Nat) (r : UpdateReq) (t' : Task),
      (updateTask db now id r).1 = .ok t' → t'.updated_at = now) ∧
    (∀ (db : Db) (now id : Nat) (r : MoveReq) (t' : Task),
      (moveTask db now id r).1 = .ok t' → t'.updated_at = now) := by
  refine ⟨?_, ?_, ?_⟩
  · intro ops c db hids ht hmono
    refine ⟨trace_hist ops c db hids ht hmono, ?_⟩
    intro u hu
    exact (timeOkB_mem (trace_timeOk ops c db ht hmono) u hu).1
  · intro db now id r t' hok
    unfold updateTask at hok
    cases hf : findTask db id with
    | none =>
      simp only [hf] at hok
      exact absurd hok (by simp)
    | some t0 =>
      simp only [hf] at hok
      split_ifs at hok
      injection hok with hok
      rw [← hok]
      rfl
  · intro db now id r t' hok
    unfold moveTask at hok
    cases hf : findTask db id with
    | none =>
      simp only [hf] at hok
      exact absurd hok (by simp)
    | some t0 =>
      simp only [hf] at hok
      split_ifs at hok
      injection hok with hok
      rw [← hok]

/-- Witness for C8: moving the fixture task at time 3 keeps its
created_at, does not decrease its updated_at, stamps updated_at = 3, and
preserves created_at <= updated_at. -/
theorem spec_C8_witness :
    ((⟨1, "Fix bug", "tokens expire", "oracle", 3, "done", 0, 0, 3⟩ : Task).created_at =
        exTask1.created_at ∧
      exTask1.updated_at ≤
        (⟨1, "Fix bug", "tokens expire", "oracle", 3, "done", 0, 0, 3⟩ : Task).updated_at) ∧
    (⟨1, "Fix bug", "tokens expire", "oracle", 3, "done", 0, 0, 3⟩ : Task).created_at ≤
      (⟨1, "Fix bug", "tokens expire", "oracle", 3, "done", 0, 0, 3⟩ : Task).updated_at := by
  obtain ⟨h1, h2⟩ := spec_C8.1 [(3, Op.moveOp 1 { status := some "done" })] 0 exDb1
    (by decide) (by decide) (by decide)
  exact ⟨h1 exTask1 (by decide) ⟨1, "Fix bug", "tokens expire", "oracle", 3, "done", 0, 0, 3⟩
    (by decide) (by decide),
    h2 ⟨1, "Fix bug", "tokens expire", "oracle", 3, "done", 0, 0, 3⟩ (by decide)⟩

end Kanban
